import Mathlib

/-!
Verification of the cave-survey reduction core (`app/main.py`,
`app/draft_utils.py`, `app/claude_ocr.py`, `app/ocr_utils.py`).

The geometry / graph pipeline works on Python floats, which we model as
real numbers; the raw-record validator pipeline compares and rounds
numeric field values, which we model as rationals so that all of its
predicates stay decidable (every concrete Python float value is a
rational number).
-/

namespace CaveSurvey

open Real

/-! ## Geometry (`shot_to_deltas`, main.py lines 128-139) -/

/-- `math.radians`: degrees to radians. -/
noncomputable def radians (x : ℝ) : ℝ := x * Real.pi / 180

/-- Python float `%` with a positive modulus: `x % m = x - m * floor (x / m)`
(the result takes the sign of the modulus). -/
noncomputable def fmod (x m : ℝ) : ℝ := x - m * ⌊x / m⌋

/-- `shot_to_deltas(slope_distance, azimuth_deg, inclination_deg)`:
azimuth 0° = North, clockwise positive; inclination positive up.
Returns `(dx, dy, dz, horiz)`. The source writes the modulus `360.0`. -/
noncomputable def shot_to_deltas (slope_distance azimuth_deg inclination_deg : ℝ) :
    ℝ × ℝ × ℝ × ℝ :=
  let inc := radians inclination_deg
  let az := radians (fmod azimuth_deg 360)
  let horiz := slope_distance * Real.cos inc
  let dz := slope_distance * Real.sin inc
  let dx := horiz * Real.sin az
  let dy := horiz * Real.cos az
  (dx, dy, dz, horiz)

/-! ## Graph builder (`build_graph`, main.py lines 141-156)

A validated shot (pydantic model `Shot` in `models.py`). The pydantic
range constraints are not baked into the type; all graph theorems hold
for arbitrary field values, which subsumes the constrained ones. -/

structure Shot where
  from_station : String
  to_station : String
  slope_distance : ℝ
  azimuth_deg : ℝ
  inclination_deg : ℝ

/-- One entry of the `vec` table: `(u, v, (dx, dy, dz))`. In the source,
`vec` is a dict keyed by consecutive edge ids `0, 1, 2, ...` in insertion
order; we represent it as a list whose index is the edge id. -/
abbrev EdgeRec := String × String × (ℝ × ℝ × ℝ)

/-- The `vec` table of `build_graph`: for each shot, a forward edge with
the shot's delta followed by a reverse edge with the negated delta. -/
noncomputable def build_vec : List Shot → List EdgeRec
  | [] => []
  | s :: rest =>
    let d := shot_to_deltas s.slope_distance s.azimuth_deg s.inclination_deg
    (s.from_station, s.to_station, (d.1, d.2.1, d.2.2.1)) ::
      (s.to_station, s.from_station, (-d.1, -d.2.1, -d.2.2.1)) :: build_vec rest

/-- The adjacency list of `build_graph`, recovered from the edge table:
the source appends `(v, eid)` to `adj[u]` exactly when edge `eid` is
inserted into `vec` with source `u`, so `adj[u]` is the id-ordered list
of edges leaving `u`. We carry the edge's vector alongside `(v, eid)`
because the traversal immediately looks it up as `vec[eid]`. -/
def adjOf (vec : List EdgeRec) (u : String) : List (String × ℕ × (ℝ × ℝ × ℝ)) :=
  (vec.enum.filter (fun p => p.2.1 == u)).map (fun p => (p.2.2.1, p.1, p.2.2.2))

/-- The keys of `adj`, in insertion order (`u` then `v` per shot). -/
def stationsOf (shots : List Shot) : List String :=
  shots.foldr (fun s acc => s.from_station :: s.to_station :: acc) []

/-! ## Network reducer (`reduce_graph`, main.py lines 158-237) -/

/-- Seed choice: `origin_name if origin_name in adj else
(next(iter(adj)) if adj else origin_name)`; the first key inserted into
`adj` is the `from` station of the first shot. -/
def seedOf (shots : List Shot) (origin_name : String) : String :=
  if origin_name ∈ stationsOf shots then origin_name
  else match shots with
    | [] => origin_name
    | s :: _ => s.from_station

/-- The `shot_map` of `reduce_graph`: `(from, to) ↦ (dx, dy, dz, slope,
horiz)`. The Python dict keeps the last binding for a repeated key, so we
reverse the list and let `List.lookup` (first match) find it. -/
noncomputable def build_shot_map (shots : List Shot) :
    List ((String × String) × ((ℝ × ℝ × ℝ) × ℝ × ℝ)) :=
  (shots.map (fun s =>
    let d := shot_to_deltas s.slope_distance s.azimuth_deg s.inclination_deg
    ((s.from_station, s.to_station),
      ((d.1, d.2.1, d.2.2.1), s.slope_distance, d.2.2.2)))).reverse

/-- Mutable state of the BFS loop. `pos` is the Python dict as an
insertion-ordered association list (keys are unique because a binding is
only appended when the key is absent); `visited` is the visited-edge-id
set (membership only); `queue` is the deque. -/
structure RState where
  pos : List (String × (ℝ × ℝ × ℝ))
  visited : List ℕ
  residuals : List (String × String × ℝ × ℝ × ℝ)
  totalSlope : ℝ
  totalHoriz : ℝ
  queue : List String

/-- Body of `for v, eid in adj[u]` for one adjacency entry, with
`(ux, uy, uz) = pos[u]` read before the loop as in the source. -/
noncomputable def processEdge
    (sm : List ((String × String) × ((ℝ × ℝ × ℝ) × ℝ × ℝ)))
    (u : String) (ux uy uz : ℝ) (st : RState)
    (e : String × ℕ × (ℝ × ℝ × ℝ)) : RState :=
  let v := e.1
  let eid := e.2.1
  let dx := e.2.2.1
  let dy := e.2.2.2.1
  let dz := e.2.2.2.2
  if eid ∈ st.visited then st
  else
    let visited := eid :: st.visited
    match st.pos.lookup v with
    | none =>
      let totals := match sm.lookup (u, v) with
        | some q => (st.totalSlope + q.2.1, st.totalHoriz + q.2.2)
        | none => (st.totalSlope, st.totalHoriz)
      ⟨st.pos ++ [(v, (ux + dx, uy + dy, uz + dz))], visited, st.residuals,
        totals.1, totals.2, st.queue ++ [v]⟩
    | some pv =>
      ⟨st.pos, visited,
        st.residuals ++ [(u, v, ux + dx - pv.1, uy + dy - pv.2.1, uz + dz - pv.2.2)],
        st.totalSlope, st.totalHoriz, st.queue⟩

/-- The `while q:` loop. Fuel bounds the number of dequeues; a station is
enqueued only when it is freshly positioned, each fresh position consumes
a previously unvisited edge id, and there are `2 * len(shots)` ids, so
`2 * len(shots) + 1` dequeues (seed included) always exhaust the queue —
the fuel passed by `reduce_graph` never runs out. A dequeued station
always has a position in the source (only positioned stations are
enqueued); the impossible unpositioned case stops the loop. -/
noncomputable def bfsRun (adjD : String → List (String × ℕ × (ℝ × ℝ × ℝ)))
    (sm : List ((String × String) × ((ℝ × ℝ × ℝ) × ℝ × ℝ))) :
    ℕ → RState → RState
  | 0, st => st
  | fuel + 1, st =>
    match st.queue with
    | [] => st
    | u :: rest =>
      match st.pos.lookup u with
      | none => st
      | some p =>
        bfsRun adjD sm fuel
          ((adjD u).foldl (processEdge sm u p.1 p.2.1 p.2.2)
            { st with queue := rest })

/-- Undirected edge key: `(a, b) if a < b else (b, a)` (Python string
comparison is lexicographic, as is Lean's). -/
def undirKey (a b : String) : String × String := if a < b then (a, b) else (b, a)

/-- The deduplicated undirected edge set built from every entry of `vec`. -/
def edgeSet (vec : List EdgeRec) : Finset (String × String) :=
  vec.foldl (fun acc e => insert (undirKey e.1 e.2.1) acc) ∅

/-- `min` over a non-empty Python iterable (0 for the impossible empty case). -/
noncomputable def listMin : List ℝ → ℝ
  | [] => 0
  | x :: l => l.foldl min x

/-- `max` over a non-empty Python iterable (0 for the impossible empty case). -/
noncomputable def listMax : List ℝ → ℝ
  | [] => 0
  | x :: l => l.foldl max x

/-- Python `round(x, 3)`. Halfway cases: Mathlib's `round` rounds half
up while Python rounds half to even on binary floats; no claim exercises
a halfway value. -/
noncomputable def round3 (x : ℝ) : ℝ := ((round (x * 1000) : ℤ) : ℝ) / 1000

structure BBox where
  min_x : ℝ
  max_x : ℝ
  min_y : ℝ
  max_y : ℝ
  min_z : ℝ
  max_z : ℝ

/-- The `meta` dict; `bbox` is `none` for the empty dict `{}`. -/
structure MetaData where
  num_stations : ℕ
  num_shots : ℕ
  total_slope_distance : ℝ
  total_horizontal_distance : ℝ
  bbox : Option BBox
  residuals : List (String × String × ℝ × ℝ × ℝ)

/-- The `(pos, edges, meta)` result triple of `reduce_graph`. -/
structure Reduced where
  pos : List (String × (ℝ × ℝ × ℝ))
  edges : Finset (String × String)
  rmeta : MetaData

/-- `reduce_graph(shots, origin_name, ox, oy, oz)`. -/
noncomputable def reduce_graph (shots : List Shot) (origin_name : String)
    (ox oy oz : ℝ) : Reduced :=
  let vec := build_vec shots
  let sm := build_shot_map shots
  let seed := seedOf shots origin_name
  let st0 : RState := ⟨[(seed, (ox, oy, oz))], [], [], 0, 0, [seed]⟩
  let st := bfsRun (adjOf vec) sm (2 * shots.length + 1) st0
  let edges := edgeSet vec
  let xs := st.pos.map (fun p => p.2.1)
  let ys := st.pos.map (fun p => p.2.2.1)
  let zs := st.pos.map (fun p => p.2.2.2)
  let bbox : Option BBox := match st.pos with
    | [] => none
    | _ => some ⟨listMin xs, listMax xs, listMin ys, listMax ys, listMin zs, listMax zs⟩
  ⟨st.pos, edges,
    ⟨st.pos.length, edges.card, round3 st.totalSlope, round3 st.totalHoriz,
      bbox, st.residuals⟩⟩

/-- The forward displacement `(dx, dy, dz)` of a shot. -/
noncomputable def shotDelta (s : Shot) : ℝ × ℝ × ℝ :=
  let d := shot_to_deltas s.slope_distance s.azimuth_deg s.inclination_deg
  (d.1, d.2.1, d.2.2.1)

/-- The state just before the `while q:` loop: the seed is positioned at
the caller-supplied offsets and queued; everything else is empty. -/
noncomputable def initState (seed : String) (ox oy oz : ℝ) : RState :=
  ⟨[(seed, (ox, oy, oz))], [], [], 0, 0, [seed]⟩

/-- The `bfsRun` argument bundle actually passed by `reduce_graph`. -/
noncomputable def finalState (shots : List Shot) (o : String) (ox oy oz : ℝ) : RState :=
  bfsRun (adjOf (build_vec shots)) (build_shot_map shots)
    (2 * shots.length + 1) (initState (seedOf shots o) ox oy oz)

/-- Three-shot loop `A1→A2→A3→A1` (misclosing: the legs sum to `(10,0,0)`). -/
noncomputable def loop3 : List Shot :=
  [⟨"A1", "A2", 10, 0, 0⟩, ⟨"A2", "A3", 10, 90, 0⟩, ⟨"A3", "A1", 10, 180, 0⟩]

/-- Two-shot chain `A1→A2 (10, 0°, 0°)`, `A2→A3 (10, 90°, 0°)`. -/
noncomputable def chain2 : List Shot :=
  [⟨"A1", "A2", 10, 0, 0⟩, ⟨"A2", "A3", 10, 90, 0⟩]

/-! ## Raw-record validator pipeline (`draft_utils.py`, `claude_ocr.py`,
`ocr_utils.py`)

Numeric field values are modelled as rationals (every concrete Python
float is one), keeping all validator predicates decidable. -/

/-- A Python scalar held in a raw shot field: a number or a string.
Other value shapes (lists, dicts) do not occur in the pipelines that
feed the validator. -/
inductive JVal where
  | num (x : ℚ)
  | str (s : String)
  deriving DecidableEq

/-- Python truthiness of an optional field value: `None`, `""` and `0`
are falsy. -/
def truthy : Option JVal → Bool
  | none => false
  | some (.num x) => x != 0
  | some (.str s) => s != ""

/-- A raw shot dict as consumed by `validate_shot`; absent keys are
`none`. `sid` is the `"id"` entry. -/
structure RawShot where
  sid : Option ℤ := none
  fromv : Option JVal := none
  tov : Option JVal := none
  typev : Option JVal := none
  distance : Option JVal := none
  compass : Option JVal := none
  clino : Option JVal := none
  deriving DecidableEq

/-- `validate_shot(shot)` (draft_utils.py lines 117-164): the ordered
error list. Interpolated numeric values in the f-string messages are
elided from the message text (no claim inspects them). -/
def validate_shot (shot : RawShot) : List String :=
  let e1 := if truthy shot.fromv then [] else ["Missing 'from' station"]
  let e2 :=
    if shot.typev == some (.str "survey") && !truthy shot.tov then
      ["Survey shots must have a 'to' station"]
    else []
  let e3 :=
    match shot.distance.getD (.num 0) with
    | .str _ => ["Distance must be a number"]
    | .num x =>
      if x ≤ 0 then ["Distance must be greater than 0"]
      else if x > 1000 then ["Distance seems unusually large"]
      else []
  let e4 :=
    match shot.compass with
    | none => ["Missing compass reading"]
    | some (.str _) => ["Compass must be a number"]
    | some (.num x) =>
      if x < 0 ∨ x ≥ 360 then ["Compass must be between 0 and 360"] else []
  let e5 :=
    match shot.clino with
    | none => ["Missing clino reading"]
    | some (.str _) => ["Clino must be a number"]
    | some (.num x) =>
      if x < -90 ∨ x > 90 then ["Clino must be between -90 and 90"] else []
  e1 ++ e2 ++ e3 ++ e4 ++ e5

/-- A well-formed survey shot record with the given numeric fields. -/
def goodShot (d a c : ℚ) : RawShot :=
  ⟨none, some (.str "A"), some (.str "B"), some (.str "survey"),
    some (.num d), some (.num a), some (.num c)⟩

/-- One entry of the issues list of `validate_draft_data`. -/
structure Issue where
  kind : String
  shot_id : Option ℤ := none
  shot_index : Option ℕ := none
  message : String
  deriving DecidableEq

/-- Python `str()` of a raw field value, used in the duplicate message;
numeric formatting is elided. -/
def pyStr : Option JVal → String
  | none => "None"
  | some (.str s) => s
  | some (.num _) => "<number>"

/-- `shot.get("type") == "survey"`. -/
def isSurvey (s : RawShot) : Bool := s.typev == some (.str "survey")

/-- The `(from, to)` pair of a raw shot as the duplicate scan sees it. -/
def pairOf (s : RawShot) : Option JVal × Option JVal := (s.fromv, s.tov)

/-- The duplicate-station scan of `validate_draft_data` (lines 209-220):
`seen` is the `station_pairs` set, a pair already seen reports one
`duplicate` issue carrying the shot's raw id. -/
def dupScan : List (Option JVal × Option JVal) → List RawShot → List Issue
  | _, [] => []
  | seen, s :: rest =>
    (if pairOf s ∈ seen then
        [⟨"duplicate", s.sid, none,
          "Duplicate shot: " ++ pyStr s.fromv ++ " to " ++ pyStr s.tov⟩]
      else []) ++ dupScan (pairOf s :: seen) rest

/-- A draft dict: `shots = none` models a missing `"shots"` key (the
`not isinstance(shots, list)` branch is unrepresentable in the typed
embedding). -/
structure Draft where
  has_metadata : Bool
  shots : Option (List RawShot)

/-- `validate_draft_data(draft_data)` (draft_utils.py lines 167-224):
returns `(is_valid, issues)`. -/
def validate_draft_data (draft : Draft) : Bool × List Issue :=
  let base : List Issue :=
    if draft.has_metadata then [] else [⟨"structure", none, none, "Missing metadata"⟩]
  match draft.shots with
  | none => (false, base ++ [⟨"structure", none, none, "Missing shots array"⟩])
  | some shots =>
    if shots.length = 0 then
      (false, base ++ [⟨"data", none, none, "No shots found in data"⟩])
    else
      let shotIssues := shots.enum.flatMap (fun p =>
        (validate_shot p.2).map (fun e =>
          (⟨"shot", some (p.2.sid.getD ((p.1 : ℤ) + 1)), some p.1, e⟩ : Issue)))
      let dupIssues := dupScan [] (shots.filter isSurvey)
      let issues := base ++ shotIssues ++ dupIssues
      (decide ((issues.filter (fun i => i.kind == "shot")).length = 0), issues)

/-- Python `round(x, 2)` on the rational model; ties round half up here
versus Python's half-to-even on floats (no claim exercises a tie). -/
def round2 (x : ℚ) : ℚ := ((round (x * 100) : ℤ) : ℚ) / 100

/-- Python `round(x, 1)`; same tie remark as `round2`. -/
def round1 (x : ℚ) : ℚ := ((round (x * 10) : ℤ) : ℚ) / 10

/-- Raw record from the vision-model JSON, after Python `float()`
succeeded on the numeric fields (records whose numerics fail to parse
are rejected before any range check and never produce a shot):
`fromv` is `str(shot.get("from", ""))`, `tov` is `None` for JSON null.
Non-string `to` values (whose `str()` never matches a null token) are
not modelled. -/
structure OcrRaw where
  fromv : String
  tov : Option String
  distance : ℚ
  compass : ℚ
  clino : ℚ

/-- The normalized shot dict produced by `clean_shot` /
`create_shot_dict`. -/
structure CleanShot where
  id : ℕ
  from_station : String
  to_station : Option String
  distance : ℚ
  compass : ℚ
  clino : ℚ
  type : String
  edited : Bool
  errors : List String
  source : String
  deriving DecidableEq

/-- Python `str.strip()`: drop leading and trailing whitespace (Python
also strips a few rarer unicode space characters). -/
def pyStrip (s : String) : String :=
  ⟨((s.data.dropWhile Char.isWhitespace).reverse.dropWhile
      Char.isWhitespace).reverse⟩

/-- `clean_shot(shot, shot_id)` (claude_ocr.py lines 333-396). -/
def clean_shot (shot : OcrRaw) (shot_id : ℕ) : Option CleanShot :=
  let from_station := pyStrip shot.fromv
  let toRes : Option String × String :=
    match shot.tov with
    | none => (none, "splay")
    | some t =>
      if pyStrip t ∈ ["", "-", "null"] then (none, "splay")
      else (some (pyStrip t), "survey")
  if from_station = "" then none
  else if shot.distance ≤ 0 ∨ shot.distance > 1000 then none
  else if shot.compass < 0 ∨ shot.compass ≥ 360 then none
  else if shot.clino < -90 ∨ shot.clino > 90 then none
  else some ⟨shot_id, from_station, toRes.1, round2 shot.distance,
    round1 shot.compass, round1 shot.clino, toRes.2, false, [], "claude_ocr"⟩

/-- `re.sub(r'[^\w\d-]', '', name)`: keep word characters, digits and
hyphens. Python `\w` is unicode-aware; ASCII alphanumerics and the
underscore cover this pipeline's names. -/
def cleanStation (s : String) : String :=
  ⟨s.data.filter (fun c => c.isAlphanum || c = '_' || c = '-')⟩

/-- `create_shot_dict(...)` (ocr_utils.py lines 171-205): station names
are cleaned when truthy, the shot is a splay exactly when `to_station`
is `None`, and the numerics are rounded for storage. -/
def create_shot_dict (shot_id : ℕ) (from_station : String)
    (to_station : Option String) (distance compass clino : ℚ) : CleanShot :=
  let f := cleanStation from_station
  let t := to_station.map (fun ts => if ts = "" then ts else cleanStation ts)
  let shot_type := match to_station with
    | none => "splay"
    | some _ => "survey"
  ⟨shot_id, f, t, round2 distance, round1 compass, round1 clino,
    shot_type, false, [], "ocr"⟩

/-- A well-formed survey shot record carrying an id. -/
def surveyShot (i : ℤ) (f t : String) : RawShot :=
  ⟨some i, some (.str f), some (.str t), some (.str "survey"),
    some (.num 5), some (.num 10), some (.num 20)⟩

/-- A draft with two identical `(from, to)` survey shots. -/
def dupDraft : Draft :=
  ⟨true, some [surveyShot 1 "A" "B", surveyShot 2 "A" "B"]⟩

/-! ## Theorems: C2 geometry; C6 graph builder; C7 edge set; BFS step
lemmas; concrete traversals; C1, C3, C5, C10 reducer claims; C4, C8, C9
validator claims -/

theorem radians_fmod_eq (az : ℝ) :
    radians (fmod az 360) = radians az + (-⌊az / (360 : ℝ)⌋ : ℤ) * (2 * Real.pi) := by
  unfold radians fmod
  push_cast
  ring

theorem sin_radians_fmod (az : ℝ) :
    Real.sin (radians (fmod az 360)) = Real.sin (radians az) := by
  rw [radians_fmod_eq, Real.sin_add_int_mul_two_pi]

theorem cos_radians_fmod (az : ℝ) :
    Real.cos (radians (fmod az 360)) = Real.cos (radians az) := by
  rw [radians_fmod_eq, Real.cos_add_int_mul_two_pi]

/-- C2: `shot_to_deltas` is a total function returning exactly
`(dx, dy, dz, horizontal)` with `horizontal = distance * cos(inclination)`,
`dz = distance * sin(inclination)`, `dx = horizontal * sin(azimuth)`,
`dy = horizontal * cos(azimuth)`; the azimuth is normalized modulo 360
degrees first, which makes the output invariant under adding 360 to the
azimuth, so any real azimuth is accepted. -/
theorem shot_to_deltas_spec (d az inc : ℝ) :
    shot_to_deltas d az inc =
      (d * Real.cos (radians inc) * Real.sin (radians az),
       d * Real.cos (radians inc) * Real.cos (radians az),
       d * Real.sin (radians inc),
       d * Real.cos (radians inc)) ∧
    shot_to_deltas d (az + 360) inc = shot_to_deltas d az inc := by
  constructor
  · simp only [shot_to_deltas, sin_radians_fmod, cos_radians_fmod]
  · have hmod : fmod (az + 360) 360 = fmod az 360 := by
      unfold fmod
      have h : (az + 360) / (360 : ℝ) = az / 360 + 1 := by
        field_simp
      rw [h, Int.floor_add_one]
      push_cast
      ring
    simp only [shot_to_deltas, hmod]

/-- C6: for `n` input shots, `build_graph` produces exactly `2 * n`
directed edges; edge ids are the pairwise distinct indices into the edge
table, the forward edge `2 * i` is `(from, to)` with the shot's delta and
the reverse edge `2 * i + 1` is `(to, from)` with the negated delta. The
function is total (never fails) and pure by construction. -/
theorem build_graph_two_edges_per_shot (shots : List Shot) :
    (build_vec shots).length = 2 * shots.length ∧
    ∀ i s, shots[i]? = some s →
      (build_vec shots)[2 * i]? =
        some (s.from_station, s.to_station, shotDelta s) ∧
      (build_vec shots)[2 * i + 1]? =
        some (s.to_station, s.from_station,
          (-(shotDelta s).1, -(shotDelta s).2.1, -(shotDelta s).2.2)) := by
  induction shots with
  | nil =>
    refine ⟨rfl, ?_⟩
    intro i s h
    simp at h
  | cons s0 rest ih =>
    refine ⟨?_, ?_⟩
    · simp only [build_vec, List.length_cons]
      rw [ih.1]
      ring
    · intro i s h
      match i with
      | 0 =>
        simp only [List.getElem?_cons_zero, Option.some.injEq] at h
        subst h
        simp [build_vec, shotDelta]
      | i + 1 =>
        simp only [List.getElem?_cons_succ] at h
        have h2 : 2 * (i + 1) = 2 * i + 1 + 1 := by ring
        have h3 : 2 * (i + 1) + 1 = 2 * i + 1 + 1 + 1 := by ring
        rw [h3, h2]
        simp only [build_vec, List.getElem?_cons_succ]
        exact (ih.2) i s h

/-- Witness for C6 at one concrete shot. -/
theorem build_graph_two_edges_per_shot_witness :
    (build_vec [⟨"A", "B", 10, 0, 0⟩]).length = 2 ∧
    (build_vec [⟨"A", "B", 10, 0, 0⟩])[0]? =
      some ("A", "B", shotDelta ⟨"A", "B", 10, 0, 0⟩) :=
  ⟨(build_graph_two_edges_per_shot [⟨"A", "B", 10, 0, 0⟩]).1,
   ((build_graph_two_edges_per_shot [⟨"A", "B", 10, 0, 0⟩]).2 0 _ rfl).1⟩

/-! ## C7: the undirected edge set is the deduplicated set of shot pairs -/

theorem undirKey_comm (a b : String) : undirKey a b = undirKey b a := by
  unfold undirKey
  rcases lt_trichotomy a b with h | h | h
  · rw [if_pos h, if_neg (not_lt_of_gt h)]
  · subst h; rfl
  · rw [if_neg (not_lt_of_gt h), if_pos h]

theorem edgeSet_foldl (l : List EdgeRec) (acc : Finset (String × String)) :
    l.foldl (fun acc e => insert (undirKey e.1 e.2.1) acc) acc =
      acc ∪ (l.map (fun e => undirKey e.1 e.2.1)).toFinset := by
  induction l generalizing acc with
  | nil => simp
  | cons e rest ih =>
    simp only [List.foldl_cons, ih, List.map_cons, List.toFinset_cons]
    ext p
    simp only [Finset.mem_union, Finset.mem_insert, List.mem_toFinset]
    tauto

theorem edgeSet_build_vec (shots : List Shot) :
    edgeSet (build_vec shots) =
      (shots.map (fun s => undirKey s.from_station s.to_station)).toFinset := by
  unfold edgeSet
  rw [edgeSet_foldl, Finset.empty_union]
  induction shots with
  | nil => rfl
  | cons s rest ih =>
    simp only [build_vec, List.map_cons, List.toFinset_cons, ih,
      undirKey_comm s.to_station s.from_station, Finset.insert_idem]

theorem reduce_graph_edges_def (shots : List Shot) (origin : String) (ox oy oz : ℝ) :
    (reduce_graph shots origin ox oy oz).edges = edgeSet (build_vec shots) := rfl

/-- C7: for every shot list (and any origin and offsets), the undirected
edge set returned by `reduce_graph` is exactly the set of unordered
station pairs of the input shots, deduplicated regardless of direction,
and every edge endpoint is a station named by some input shot. -/
theorem reduce_graph_edge_set (shots : List Shot) (origin : String) (ox oy oz : ℝ) :
    (reduce_graph shots origin ox oy oz).edges =
      (shots.map (fun s => undirKey s.from_station s.to_station)).toFinset ∧
    ∀ p ∈ (reduce_graph shots origin ox oy oz).edges, ∃ s ∈ shots,
      (p.1 = s.from_station ∨ p.1 = s.to_station) ∧
      (p.2 = s.from_station ∨ p.2 = s.to_station) := by
  have he : (reduce_graph shots origin ox oy oz).edges =
      (shots.map (fun s => undirKey s.from_station s.to_station)).toFinset := by
    rw [reduce_graph_edges_def, edgeSet_build_vec]
  refine ⟨he, ?_⟩
  intro p hp
  rw [he, List.mem_toFinset, List.mem_map] at hp
  obtain ⟨s, hs, hkey⟩ := hp
  refine ⟨s, hs, ?_⟩
  unfold undirKey at hkey
  by_cases hlt : s.from_station < s.to_station
  · rw [if_pos hlt] at hkey
    rw [← hkey]
    exact ⟨Or.inl rfl, Or.inr rfl⟩
  · rw [if_neg hlt] at hkey
    rw [← hkey]
    exact ⟨Or.inr rfl, Or.inl rfl⟩

/-- Witness for C7: the orphan-freeness part applied to a concrete
network with one shot. -/
theorem reduce_graph_edge_set_witness :
    ∃ s ∈ [(⟨"A", "B", 10, 0, 0⟩ : Shot)],
      ((("A", "B") : String × String).1 = s.from_station ∨
        (("A", "B") : String × String).1 = s.to_station) ∧
      ((("A", "B") : String × String).2 = s.from_station ∨
        (("A", "B") : String × String).2 = s.to_station) :=
  (reduce_graph_edge_set [⟨"A", "B", 10, 0, 0⟩] "A" 0 0 0).2 ("A", "B")
    (by
      rw [(reduce_graph_edge_set [⟨"A", "B", 10, 0, 0⟩] "A" 0 0 0).1]
      have hk : undirKey "A" "B" = ("A", "B") := by
        unfold undirKey
        rw [if_pos]
        rw [String.lt_iff_toList_lt]
        decide
      simp [hk])

theorem reduce_graph_pos_def (shots : List Shot) (o : String) (ox oy oz : ℝ) :
    (reduce_graph shots o ox oy oz).pos =
      (bfsRun (adjOf (build_vec shots)) (build_shot_map shots)
        (2 * shots.length + 1) (initState (seedOf shots o) ox oy oz)).pos := rfl

theorem reduce_graph_residuals_def (shots : List Shot) (o : String) (ox oy oz : ℝ) :
    (reduce_graph shots o ox oy oz).rmeta.residuals =
      (bfsRun (adjOf (build_vec shots)) (build_shot_map shots)
        (2 * shots.length + 1) (initState (seedOf shots o) ox oy oz)).residuals := rfl

theorem reduce_graph_num_stations_def (shots : List Shot) (o : String) (ox oy oz : ℝ) :
    (reduce_graph shots o ox oy oz).rmeta.num_stations =
      (bfsRun (adjOf (build_vec shots)) (build_shot_map shots)
        (2 * shots.length + 1) (initState (seedOf shots o) ox oy oz)).pos.length := rfl

theorem lookup_append_single {α β : Type} [BEq α] (l : List (α × β)) (e : α × β)
    (k : α) (v : β) (h : l.lookup k = some v) : (l ++ [e]).lookup k = some v := by
  induction l with
  | nil => simp [List.lookup] at h
  | cons a l ih =>
    rw [List.cons_append]
    simp only [List.lookup] at h ⊢
    cases hk : (k == a.1) with
    | true => simpa [hk] using h
    | false =>
      simp only [hk] at h ⊢
      exact ih h

theorem processEdge_pos_lookup (sm : List ((String × String) × ((ℝ × ℝ × ℝ) × ℝ × ℝ)))
    (u : String) (ux uy uz : ℝ) (st : RState) (e : String × ℕ × (ℝ × ℝ × ℝ))
    (k : String) (v : ℝ × ℝ × ℝ) (h : st.pos.lookup k = some v) :
    (processEdge sm u ux uy uz st e).pos.lookup k = some v := by
  unfold processEdge
  dsimp only
  split
  · exact h
  · split
    · exact lookup_append_single _ _ _ _ h
    · exact h

theorem processEdges_pos_lookup (sm : List ((String × String) × ((ℝ × ℝ × ℝ) × ℝ × ℝ)))
    (u : String) (ux uy uz : ℝ) (es : List (String × ℕ × (ℝ × ℝ × ℝ)))
    (k : String) (v : ℝ × ℝ × ℝ) :
    ∀ st : RState, st.pos.lookup k = some v →
      (es.foldl (processEdge sm u ux uy uz) st).pos.lookup k = some v := by
  induction es with
  | nil => intro st h; exact h
  | cons e rest ih =>
    intro st h
    rw [List.foldl_cons]
    exact ih _ (processEdge_pos_lookup sm u ux uy uz st e k v h)

theorem bfsRun_pos_lookup (adjD : String → List (String × ℕ × (ℝ × ℝ × ℝ)))
    (sm : List ((String × String) × ((ℝ × ℝ × ℝ) × ℝ × ℝ))) (fuel : ℕ) :
    ∀ st : RState, ∀ (k : String) (v : ℝ × ℝ × ℝ), st.pos.lookup k = some v →
      (bfsRun adjD sm fuel st).pos.lookup k = some v := by
  induction fuel with
  | zero => intro st k v h; exact h
  | succ n ih =>
    intro st k v h
    rw [bfsRun]
    cases hq : st.queue with
    | nil => exact h
    | cons u rest =>
      dsimp only
      cases hu : st.pos.lookup u with
      | none => exact h
      | some p =>
        dsimp only
        exact ih _ k v (processEdges_pos_lookup sm u p.1 p.2.1 p.2.2 (adjD u) k v _ h)

/-- Each consumed edge adds exactly one position or one residual, so
`|residuals| + |positions| = |visited edges| + 1` is preserved. -/
theorem processEdge_count (sm : List ((String × String) × ((ℝ × ℝ × ℝ) × ℝ × ℝ)))
    (u : String) (ux uy uz : ℝ) (st : RState) (e : String × ℕ × (ℝ × ℝ × ℝ))
    (h : st.residuals.length + st.pos.length = st.visited.length + 1) :
    (processEdge sm u ux uy uz st e).residuals.length +
        (processEdge sm u ux uy uz st e).pos.length =
      (processEdge sm u ux uy uz st e).visited.length + 1 := by
  unfold processEdge
  dsimp only
  split
  · exact h
  · split
    · simp only [List.length_append, List.length_cons, List.length_nil]
      omega
    · simp only [List.length_append, List.length_cons, List.length_nil]
      omega

theorem processEdges_count (sm : List ((String × String) × ((ℝ × ℝ × ℝ) × ℝ × ℝ)))
    (u : String) (ux uy uz : ℝ) (es : List (String × ℕ × (ℝ × ℝ × ℝ))) :
    ∀ st : RState, st.residuals.length + st.pos.length = st.visited.length + 1 →
      (es.foldl (processEdge sm u ux uy uz) st).residuals.length +
          (es.foldl (processEdge sm u ux uy uz) st).pos.length =
        (es.foldl (processEdge sm u ux uy uz) st).visited.length + 1 := by
  induction es with
  | nil => intro st h; exact h
  | cons e rest ih =>
    intro st h
    rw [List.foldl_cons]
    exact ih _ (processEdge_count sm u ux uy uz st e h)

theorem bfsRun_count (adjD : String → List (String × ℕ × (ℝ × ℝ × ℝ)))
    (sm : List ((String × String) × ((ℝ × ℝ × ℝ) × ℝ × ℝ))) (fuel : ℕ) :
    ∀ st : RState, st.residuals.length + st.pos.length = st.visited.length + 1 →
      (bfsRun adjD sm fuel st).residuals.length +
          (bfsRun adjD sm fuel st).pos.length =
        (bfsRun adjD sm fuel st).visited.length + 1 := by
  induction fuel with
  | zero => intro st h; exact h
  | succ n ih =>
    intro st h
    rw [bfsRun]
    cases hq : st.queue with
    | nil => exact h
    | cons u rest =>
      dsimp only
      cases hu : st.pos.lookup u with
      | none => exact h
      | some p =>
        dsimp only
        exact ih _ (processEdges_count sm u p.1 p.2.1 p.2.2 (adjD u) _ h)

theorem finalState_def (shots : List Shot) (o : String) (ox oy oz : ℝ) :
    finalState shots o ox oy oz =
      bfsRun (adjOf (build_vec shots)) (build_shot_map shots)
        (2 * shots.length + 1) (initState (seedOf shots o) ox oy oz) := rfl

theorem reduce_graph_total_slope_def (shots : List Shot) (o : String) (ox oy oz : ℝ) :
    (reduce_graph shots o ox oy oz).rmeta.total_slope_distance =
      round3 (finalState shots o ox oy oz).totalSlope := rfl

theorem reduce_graph_bbox_def (shots : List Shot) (o : String) (ox oy oz : ℝ) :
    (reduce_graph shots o ox oy oz).rmeta.bbox =
      (match (finalState shots o ox oy oz).pos with
        | [] => none
        | _ => some
            ⟨listMin ((finalState shots o ox oy oz).pos.map (fun p => p.2.1)),
             listMax ((finalState shots o ox oy oz).pos.map (fun p => p.2.1)),
             listMin ((finalState shots o ox oy oz).pos.map (fun p => p.2.2.1)),
             listMax ((finalState shots o ox oy oz).pos.map (fun p => p.2.2.1)),
             listMin ((finalState shots o ox oy oz).pos.map (fun p => p.2.2.2)),
             listMax ((finalState shots o ox oy oz).pos.map (fun p => p.2.2.2))⟩) := rfl

/-- `BEq` on pairs unfolds componentwise (definitional). -/
theorem prod_beq_expand {α β : Type} [BEq α] [BEq β] (a c : α) (b d : β) :
    ((a, b) == (c, d)) = (a == c && b == d) := rfl

theorem deltas_10_0_0 : shot_to_deltas 10 0 0 = (0, 10, 0, 10) := by
  unfold shot_to_deltas radians fmod
  norm_num

theorem deltas_10_90_0 : shot_to_deltas 10 90 0 = (10, 0, 0, 10) := by
  unfold shot_to_deltas radians fmod
  have hf : ⌊(90 : ℝ) / 360⌋ = 0 := by
    rw [Int.floor_eq_zero_iff]
    constructor <;> norm_num
  rw [hf]
  have h2 : ((90 : ℝ) - 360 * (0 : ℤ)) * Real.pi / 180 = Real.pi / 2 := by
    push_cast
    ring
  rw [h2]
  norm_num [Real.sin_pi_div_two, Real.cos_pi_div_two]

theorem deltas_10_180_0 : shot_to_deltas 10 180 0 = (0, -10, 0, 10) := by
  unfold shot_to_deltas radians fmod
  have hf : ⌊(180 : ℝ) / 360⌋ = 0 := by
    rw [Int.floor_eq_zero_iff]
    constructor <;> norm_num
  rw [hf]
  have h2 : ((180 : ℝ) - 360 * (0 : ℤ)) * Real.pi / 180 = Real.pi := by
    push_cast
    ring
  rw [h2]
  norm_num [Real.sin_pi, Real.cos_pi]

theorem loop3_vec : build_vec loop3 =
    [("A1", "A2", (0, 10, 0)), ("A2", "A1", (0, -10, 0)),
     ("A2", "A3", (10, 0, 0)), ("A3", "A2", (-10, 0, 0)),
     ("A3", "A1", (0, -10, 0)), ("A1", "A3", (0, 10, 0))] := by
  simp [build_vec, loop3, deltas_10_0_0, deltas_10_90_0, deltas_10_180_0]

theorem loop3_sm : build_shot_map loop3 =
    [(("A3", "A1"), ((0, -10, 0), 10, 10)),
     (("A2", "A3"), ((10, 0, 0), 10, 10)),
     (("A1", "A2"), ((0, 10, 0), 10, 10))] := by
  simp [build_shot_map, loop3, deltas_10_0_0, deltas_10_90_0, deltas_10_180_0]

theorem loop3_seed : seedOf loop3 "A1" = "A1" := by
  simp +decide [seedOf, stationsOf, loop3]

/-- Full trace of the BFS over the three-shot loop from `A1` at the
origin: both directions of every shot are consumed separately, so four
residuals are recorded, one per reverse/closing directed edge. -/
theorem loop3_run : finalState loop3 "A1" 0 0 0 =
    ⟨[("A1", (0, 0, 0)), ("A2", (0, 10, 0)), ("A3", (0, 10, 0))],
     [4, 3, 2, 1, 5, 0],
     [("A2", "A1", 0, 0, 0), ("A2", "A3", 10, 0, 0),
      ("A3", "A2", -10, 0, 0), ("A3", "A1", 0, 0, 0)],
     10, 10, []⟩ := by
  rw [finalState_def, loop3_vec, loop3_sm, loop3_seed]
  have hlen : 2 * loop3.length + 1 = 7 := by simp [loop3]
  rw [hlen]
  simp +decide [bfsRun, processEdge, adjOf, initState, List.lookup, List.enum,
    List.enumFrom, prod_beq_expand]

theorem chain2_vec : build_vec chain2 =
    [("A1", "A2", (0, 10, 0)), ("A2", "A1", (0, -10, 0)),
     ("A2", "A3", (10, 0, 0)), ("A3", "A2", (-10, 0, 0))] := by
  simp [build_vec, chain2, deltas_10_0_0, deltas_10_90_0]

theorem chain2_sm : build_shot_map chain2 =
    [(("A2", "A3"), ((10, 0, 0), 10, 10)),
     (("A1", "A2"), ((0, 10, 0), 10, 10))] := by
  simp [build_shot_map, chain2, deltas_10_0_0, deltas_10_90_0]

theorem chain2_seed : seedOf chain2 "A1" = "A1" := by
  simp +decide [seedOf, stationsOf, chain2]

/-- Full trace of the BFS over the two-shot chain from `A1` at the origin. -/
theorem chain2_run : finalState chain2 "A1" 0 0 0 =
    ⟨[("A1", (0, 0, 0)), ("A2", (0, 10, 0)), ("A3", (10, 10, 0))],
     [3, 2, 1, 0],
     [("A2", "A1", 0, 0, 0), ("A3", "A2", 0, 0, 0)],
     20, 20, []⟩ := by
  rw [finalState_def, chain2_vec, chain2_sm, chain2_seed]
  have hlen : 2 * chain2.length + 1 = 5 := by simp [chain2]
  rw [hlen]
  simp +decide [bfsRun, processEdge, adjOf, initState, List.lookup, List.enum,
    List.enumFrom, prod_beq_expand]
  norm_num

/-! ## C1: residual count -/

/-- C1 counterexample: the three-shot loop `A1→A2→A3→A1` reduced from
origin `A1` records four residual entries, not exactly one as the claim
states ( `visited_edges` tracks the two directions of a shot as separate
ids, so every reverse or closing directed edge that reconnects to a
positioned station appends a residual). -/
theorem loop3_one_residual_counterexample :
    (reduce_graph loop3 "A1" 0 0 0).rmeta.residuals.length = 4 ∧
    (reduce_graph loop3 "A1" 0 0 0).rmeta.residuals.length ≠ 1 := by
  have h : (reduce_graph loop3 "A1" 0 0 0).rmeta.residuals =
      [("A2", "A1", 0, 0, 0), ("A2", "A3", 10, 0, 0),
       ("A3", "A2", -10, 0, 0), ("A3", "A1", 0, 0, 0)] := by
    rw [reduce_graph_residuals_def]
    rw [show (bfsRun (adjOf (build_vec loop3)) (build_shot_map loop3)
        (2 * loop3.length + 1) (initState (seedOf loop3 "A1") 0 0 0)) =
      finalState loop3 "A1" 0 0 0 from rfl]
    rw [loop3_run]
  rw [h]
  simp

/-- C1 amended: the residual count satisfies the spanning-tree relation
for DIRECTED edges: at every point of the traversal (hence in the final
result), `residuals + stations positioned = directed edges consumed + 1`;
both directions of one original shot count as two consumed edges, not
one. For the three-shot loop reduced from origin `A1`, four residuals are
recorded — `(A2,A1)` and `(A3,A1)` from the two directed edges closing
back onto the seed, and `(A2,A3)`, `(A3,A2)` carrying the `(±10,0,0)`
loop misclosure — matching `6 − 3 + 1 = 4`. -/
theorem reduce_residual_count_directed :
    (∀ (shots : List Shot) (origin : String) (ox oy oz : ℝ),
      (reduce_graph shots origin ox oy oz).rmeta.residuals.length +
          (reduce_graph shots origin ox oy oz).rmeta.num_stations =
        (finalState shots origin ox oy oz).visited.length + 1) ∧
    (reduce_graph loop3 "A1" 0 0 0).rmeta.residuals =
      [("A2", "A1", 0, 0, 0), ("A2", "A3", 10, 0, 0),
       ("A3", "A2", -10, 0, 0), ("A3", "A1", 0, 0, 0)] ∧
    (finalState loop3 "A1" 0 0 0).visited.length = 6 ∧
    (reduce_graph loop3 "A1" 0 0 0).rmeta.num_stations = 3 := by
  refine ⟨?_, ?_, ?_, ?_⟩
  · intro shots origin ox oy oz
    rw [reduce_graph_residuals_def, reduce_graph_num_stations_def]
    exact bfsRun_count _ _ _ _ (by simp [initState])
  · rw [reduce_graph_residuals_def]
    rw [show (bfsRun (adjOf (build_vec loop3)) (build_shot_map loop3)
        (2 * loop3.length + 1) (initState (seedOf loop3 "A1") 0 0 0)) =
      finalState loop3 "A1" 0 0 0 from rfl]
    rw [loop3_run]
  · rw [loop3_run]
    rfl
  · rw [reduce_graph_num_stations_def]
    rw [show (bfsRun (adjOf (build_vec loop3)) (build_shot_map loop3)
        (2 * loop3.length + 1) (initState (seedOf loop3 "A1") 0 0 0)) =
      finalState loop3 "A1" 0 0 0 from rfl]
    rw [loop3_run]
    rfl

/-! ## C3: positions are write-once -/

/-- C3: during the traversal a recorded position is never changed: every
binding in the position map survives any number of further BFS steps; a
not-yet-visited edge whose target is already positioned only appends a
residual, leaving `pos` untouched; and in the loop scenario the origin
`A1` still holds the seeded offsets when traversal finishes. -/
theorem reduce_positions_write_once :
    (∀ (adjD : String → List (String × ℕ × (ℝ × ℝ × ℝ)))
        (sm : List ((String × String) × ((ℝ × ℝ × ℝ) × ℝ × ℝ)))
        (fuel : ℕ) (st : RState) (k : String) (v : ℝ × ℝ × ℝ),
      st.pos.lookup k = some v → (bfsRun adjD sm fuel st).pos.lookup k = some v) ∧
    (∀ (sm : List ((String × String) × ((ℝ × ℝ × ℝ) × ℝ × ℝ)))
        (u : String) (ux uy uz : ℝ) (st : RState) (v : String) (eid : ℕ)
        (dx dy dz : ℝ) (pv : ℝ × ℝ × ℝ),
      eid ∉ st.visited → st.pos.lookup v = some pv →
      processEdge sm u ux uy uz st (v, eid, (dx, dy, dz)) =
        ⟨st.pos, eid :: st.visited,
          st.residuals ++ [(u, v, ux + dx - pv.1, uy + dy - pv.2.1, uz + dz - pv.2.2)],
          st.totalSlope, st.totalHoriz, st.queue⟩) ∧
    (reduce_graph loop3 "A1" 1 2 3).pos.lookup "A1" = some (1, 2, 3) := by
  refine ⟨bfsRun_pos_lookup, ?_, ?_⟩
  · intro sm u ux uy uz st v eid dx dy dz pv hmem hv
    unfold processEdge
    dsimp only
    rw [if_neg hmem, hv]
  · rw [reduce_graph_pos_def]
    apply bfsRun_pos_lookup
    rw [loop3_seed]
    simp [initState, List.lookup]

/-- Witness for C3 at concrete inputs: a position binding survives a run,
and a loop-closure step appends exactly the predicted-minus-actual
residual. -/
theorem reduce_positions_write_once_witness :
    (bfsRun (fun _ => []) [] 5 ⟨[("X", (1, 2, 3))], [], [], 0, 0, []⟩).pos.lookup "X" =
        some (1, 2, 3) ∧
    processEdge [] "U" 1 1 1 ⟨[("V", (0, 0, 0))], [], [], 0, 0, []⟩ ("V", 0, (1, 1, 1)) =
      ⟨[("V", (0, 0, 0))], [0], [("U", "V", 1 + 1 - 0, 1 + 1 - 0, 1 + 1 - 0)], 0, 0, []⟩ :=
  ⟨reduce_positions_write_once.1 (fun _ => []) [] 5 _ "X" (1, 2, 3) rfl,
   reduce_positions_write_once.2.1 [] "U" 1 1 1 _ "V" 0 1 1 1 (0, 0, 0)
     (by simp) rfl⟩

/-! ## C5: the two-shot chain scenario -/

/-- C5: reducing `A1→A2 (10, 0°, 0°)`, `A2→A3 (10, 90°, 0°)` from origin
`A1` at `(0,0,0)` puts `A2` at `(0,10,0)` and `A3` at `(10,10,0)`, with
total slope distance 20 and bounding box
`min_x 0, max_x 10, min_y 0, max_y 10, min_z 0, max_z 0`. -/
theorem reduce_two_shot_chain_scenario :
    (reduce_graph chain2 "A1" 0 0 0).pos.lookup "A2" = some (0, 10, 0) ∧
    (reduce_graph chain2 "A1" 0 0 0).pos.lookup "A3" = some (10, 10, 0) ∧
    (reduce_graph chain2 "A1" 0 0 0).rmeta.total_slope_distance = 20 ∧
    (reduce_graph chain2 "A1" 0 0 0).rmeta.bbox = some ⟨0, 10, 0, 10, 0, 0⟩ := by
  have hpos : (reduce_graph chain2 "A1" 0 0 0).pos =
      [("A1", (0, 0, 0)), ("A2", (0, 10, 0)), ("A3", (10, 10, 0))] := by
    rw [reduce_graph_pos_def]
    rw [show (bfsRun (adjOf (build_vec chain2)) (build_shot_map chain2)
        (2 * chain2.length + 1) (initState (seedOf chain2 "A1") 0 0 0)) =
      finalState chain2 "A1" 0 0 0 from rfl]
    rw [chain2_run]
  refine ⟨?_, ?_, ?_, ?_⟩
  · rw [hpos]
    simp +decide [List.lookup]
  · rw [hpos]
    simp +decide [List.lookup]
  · rw [reduce_graph_total_slope_def, chain2_run]
    show round3 20 = 20
    unfold round3
    rw [show ((20 : ℝ) * 1000) = ((20000 : ℤ) : ℝ) by norm_num, round_intCast]
    norm_num
  · rw [reduce_graph_bbox_def, chain2_run]
    dsimp only
    norm_num [listMin, listMax, min_def, max_def]

/-! ## C10: totality, seed placement and the empty survey -/

/-- C10: `reduce_graph` is total (a Lean function by construction — no
Python exception path is reachable): for every shot list, origin name and
offsets the chosen seed station is mapped exactly to `(ox, oy, oz)` in
the returned position map, and on the empty shot list the result is the
single requested origin station at the offsets, no edges, no residuals,
zero totals, and a bounding box degenerate to that point. -/
theorem reduce_graph_total_seed_and_empty :
    (∀ (shots : List Shot) (origin : String) (ox oy oz : ℝ),
      (reduce_graph shots origin ox oy oz).pos.lookup (seedOf shots origin) =
        some (ox, oy, oz)) ∧
    (∀ (origin : String) (ox oy oz : ℝ),
      reduce_graph [] origin ox oy oz =
        ⟨[(origin, (ox, oy, oz))], ∅,
          ⟨1, 0, 0, 0, some ⟨ox, ox, oy, oy, oz, oz⟩, []⟩⟩) := by
  constructor
  · intro shots origin ox oy oz
    rw [reduce_graph_pos_def]
    apply bfsRun_pos_lookup
    simp [initState, List.lookup]
  · intro origin ox oy oz
    simp +decide [reduce_graph, seedOf, stationsOf, build_vec, build_shot_map,
      adjOf, bfsRun, edgeSet, listMin, listMax, round3, List.lookup]

/-! ## C4: validator numeric ranges -/

theorem dist_chunk_nil_iff (x : ℚ) :
    ((if x ≤ 0 then ["Distance must be greater than 0"]
      else if x > 1000 then ["Distance seems unusually large"]
      else []) = ([] : List String)) ↔ 0 < x ∧ x ≤ 1000 := by
  split_ifs with h1 h2
  · exact iff_of_false (by simp) (by rintro ⟨hp, _⟩; linarith)
  · exact iff_of_false (by simp) (by rintro ⟨_, hp⟩; linarith)
  · push_neg at h1 h2
    exact iff_of_true rfl ⟨h1, h2⟩

theorem compass_chunk_nil_iff (x : ℚ) :
    ((if x < 0 ∨ x ≥ 360 then ["Compass must be between 0 and 360"]
      else []) = ([] : List String)) ↔ 0 ≤ x ∧ x < 360 := by
  split_ifs with h1
  · refine iff_of_false (by simp) ?_
    rintro ⟨hl, hr⟩
    rcases h1 with h | h <;> linarith
  · push_neg at h1
    exact iff_of_true rfl ⟨h1.1, h1.2⟩

theorem clino_chunk_nil_iff (x : ℚ) :
    ((if x < -90 ∨ x > 90 then ["Clino must be between -90 and 90"]
      else []) = ([] : List String)) ↔ -90 ≤ x ∧ x ≤ 90 := by
  split_ifs with h1
  · refine iff_of_false (by simp) ?_
    rintro ⟨hl, hr⟩
    rcases h1 with h | h <;> linarith
  · push_neg at h1
    exact iff_of_true rfl ⟨h1.1, h1.2⟩

/-- C4: the shot validator accepts the numeric fields exactly on
`0 < distance ≤ 1000`, `0 ≤ azimuth < 360`, `-90 ≤ inclination ≤ 90`:
for a well-formed record the error list is empty iff all three ranges
hold; any record with distance `0` or `1000.0001`, compass `360`, or
clino `90.1` is rejected; and the boundary values `1000`, `0.01`, `0`,
`359.9`, `90`, `-90` are accepted. -/
theorem validate_shot_numeric_ranges :
    (∀ d a c : ℚ, validate_shot (goodShot d a c) = [] ↔
      (0 < d ∧ d ≤ 1000) ∧ (0 ≤ a ∧ a < 360) ∧ (-90 ≤ c ∧ c ≤ 90)) ∧
    (∀ shot : RawShot, shot.distance = some (.num 0) → validate_shot shot ≠ []) ∧
    (∀ shot : RawShot, shot.distance = some (.num 1000.0001) → validate_shot shot ≠ []) ∧
    (∀ shot : RawShot, shot.compass = some (.num 360) → validate_shot shot ≠ []) ∧
    (∀ shot : RawShot, shot.clino = some (.num 90.1) → validate_shot shot ≠ []) ∧
    validate_shot (goodShot 1000 0 90) = [] ∧
    validate_shot (goodShot 0.01 359.9 (-90)) = [] := by
  refine ⟨?_, ?_, ?_, ?_, ?_,
    by simp only [validate_shot, goodShot, truthy]; norm_num;
       exact ⟨by decide, by decide⟩,
    by simp only [validate_shot, goodShot, truthy]; norm_num;
       exact ⟨by decide, by decide⟩⟩
  · intro d a c
    simp only [validate_shot, goodShot, truthy]
    norm_num
    rw [dist_chunk_nil_iff]
    simp [show ¬"A" = "" by decide, show ¬"B" = "" by decide]
  · intro shot h
    refine List.ne_nil_of_mem (a := "Distance must be greater than 0") ?_
    simp only [validate_shot, h]
    norm_num
  · intro shot h
    refine List.ne_nil_of_mem (a := "Distance seems unusually large") ?_
    simp only [validate_shot, h]
    norm_num
  · intro shot h
    refine List.ne_nil_of_mem (a := "Compass must be between 0 and 360") ?_
    simp only [validate_shot, h]
    norm_num
  · intro shot h
    refine List.ne_nil_of_mem (a := "Clino must be between -90 and 90") ?_
    simp only [validate_shot, h]
    norm_num

/-- Witness for C4 at concrete rejected shots. -/
theorem validate_shot_numeric_ranges_witness :
    validate_shot (goodShot 0 10 10) ≠ [] ∧
    validate_shot (goodShot 1000.0001 10 10) ≠ [] ∧
    validate_shot (goodShot 5 360 10) ≠ [] ∧
    validate_shot (goodShot 5 10 90.1) ≠ [] :=
  ⟨validate_shot_numeric_ranges.2.1 (goodShot 0 10 10) rfl,
   validate_shot_numeric_ranges.2.2.1 (goodShot 1000.0001 10 10) rfl,
   validate_shot_numeric_ranges.2.2.2.1 (goodShot 5 360 10) rfl,
   validate_shot_numeric_ranges.2.2.2.2.1 (goodShot 5 10 90.1) rfl⟩

/-! ## C8: normalized shots from the OCR validators -/

/-- C8: every raw record accepted by `clean_shot` is normalized as
specified — a `to` value that is null, or whose trimmed text is empty,
`"-"` or `"null"`, yields no destination and a splay; any other `to`
is trimmed and yields a survey leg; and the stored numerics are the
inputs rounded to 2 (distance) and 1 (angles) decimal places.
`create_shot_dict` applies the same rounding and classifies a shot as a
splay exactly when it has no destination. -/
theorem clean_shot_normalized :
    (∀ (raw : OcrRaw) (i : ℕ) (out : CleanShot), clean_shot raw i = some out →
      ((raw.tov = none ∨ ∃ t, raw.tov = some t ∧ pyStrip t ∈ ["", "-", "null"]) →
        out.to_station = none ∧ out.type = "splay") ∧
      (∀ t, raw.tov = some t → pyStrip t ∉ ["", "-", "null"] →
        out.to_station = some (pyStrip t) ∧ out.type = "survey") ∧
      out.distance = round2 raw.distance ∧
      out.compass = round1 raw.compass ∧
      out.clino = round1 raw.clino) ∧
    (∀ (i : ℕ) (f : String) (t : Option String) (d a c : ℚ),
      (create_shot_dict i f t d a c).distance = round2 d ∧
      (create_shot_dict i f t d a c).compass = round1 a ∧
      (create_shot_dict i f t d a c).clino = round1 c ∧
      (create_shot_dict i f none d a c).to_station = none ∧
      (create_shot_dict i f none d a c).type = "splay" ∧
      (∀ ts, t = some ts → (create_shot_dict i f t d a c).type = "survey")) := by
  constructor
  · intro raw i out h
    cases htov : raw.tov with
    | none =>
      unfold clean_shot at h
      rw [htov] at h
      dsimp only at h
      split_ifs at h with h1 h2 h3 h4
      rw [Option.some.injEq] at h
      subst h
      refine ⟨fun _ => ⟨rfl, rfl⟩, ?_, rfl, rfl, rfl⟩
      intro t ht
      exact absurd ht (by simp)
    | some t0 =>
      unfold clean_shot at h
      rw [htov] at h
      dsimp only at h
      split_ifs at h with hf hd hc hcl hmem
      · rw [Option.some.injEq] at h
        subst h
        refine ⟨fun _ => ⟨rfl, rfl⟩, ?_, rfl, rfl, rfl⟩
        intro t ht hnot
        rw [Option.some.injEq] at ht
        subst ht
        exact absurd hmem hnot
      · rw [Option.some.injEq] at h
        subst h
        refine ⟨?_, ?_, rfl, rfl, rfl⟩
        · rintro (h0 | ⟨t, ht, hmem2⟩)
          · exact absurd h0 (by simp)
          · rw [Option.some.injEq] at ht
            subst ht
            exact absurd hmem2 hmem
        · intro t ht hnot
          rw [Option.some.injEq] at ht
          subst ht
          exact ⟨rfl, rfl⟩
  · intro i f t d a c
    refine ⟨rfl, rfl, rfl, rfl, rfl, ?_⟩
    intro ts ht
    subst ht
    rfl

/-- Witness for C8 at a concrete accepted record. -/
theorem clean_shot_normalized_witness :
    (⟨1, pyStrip "A", some (pyStrip "B"), round2 5, round1 10, round1 20,
        "survey", false, [], "claude_ocr"⟩ : CleanShot).to_station =
      some (pyStrip "B") ∧
    (⟨1, pyStrip "A", some (pyStrip "B"), round2 5, round1 10, round1 20,
        "survey", false, [], "claude_ocr"⟩ : CleanShot).type = "survey" :=
  (clean_shot_normalized.1 ⟨"A", some "B", 5, 10, 20⟩ 1 _ rfl).2.1 "B" rfl
    (by decide)

/-! ## C9: duplicate reporting in draft validation -/

theorem dupScan_all_duplicate (l : List RawShot) :
    ∀ (seen : List (Option JVal × Option JVal)) (i : Issue),
      i ∈ dupScan seen l → i.kind = "duplicate" := by
  induction l with
  | nil => intro seen i h; simp [dupScan] at h
  | cons s rest ih =>
    intro seen i h
    rw [dupScan] at h
    rcases List.mem_append.mp h with hl | hr
    · split_ifs at hl with hp
      · rw [List.mem_singleton] at hl
        subst hl
        rfl
      · simp at hl
    · exact ih _ i hr

/-- Each survey shot whose `(from, to)` pair was already seen adds
exactly one duplicate issue: `|issues| + |distinct unseen pairs| =
|shots scanned|`. -/
theorem dupScan_length (l : List RawShot) :
    ∀ seen : List (Option JVal × Option JVal),
      (dupScan seen l).length +
          ((l.map pairOf).toFinset \ seen.toFinset).card = l.length := by
  induction l with
  | nil => intro seen; simp [dupScan]
  | cons s rest ih =>
    intro seen
    rw [dupScan]
    by_cases hmem : pairOf s ∈ seen
    · rw [if_pos hmem, List.length_append, List.length_singleton]
      have hseen : (pairOf s :: seen).toFinset = seen.toFinset := by
        rw [List.toFinset_cons, Finset.insert_eq_self, List.mem_toFinset]
        exact hmem
      have hins : ((s :: rest).map pairOf).toFinset \ seen.toFinset =
          (rest.map pairOf).toFinset \ seen.toFinset := by
        rw [List.map_cons, List.toFinset_cons]
        exact Finset.insert_sdiff_of_mem _ (List.mem_toFinset.mpr hmem)
      have h2 := ih (pairOf s :: seen)
      rw [hseen] at h2
      rw [hins, List.length_cons]
      omega
    · rw [if_neg hmem, List.nil_append]
      have h2 := ih (pairOf s :: seen)
      rw [List.toFinset_cons, Finset.sdiff_insert] at h2
      have hins : ((s :: rest).map pairOf).toFinset \ seen.toFinset =
          insert (pairOf s) ((rest.map pairOf).toFinset \ seen.toFinset) := by
        rw [List.map_cons, List.toFinset_cons]
        exact Finset.insert_sdiff_of_not_mem _
          (fun hc => hmem (List.mem_toFinset.mp hc))
      rw [hins, List.length_cons]
      by_cases hp : pairOf s ∈ (rest.map pairOf).toFinset \ seen.toFinset
      · rw [Finset.insert_eq_self.mpr hp]
        have := Finset.card_erase_add_one hp
        omega
      · rw [Finset.card_insert_of_not_mem hp,
          Finset.erase_eq_of_not_mem hp] at *
        omega

theorem filter_dup_base (b : Bool) :
    ((if b then ([] : List Issue)
      else [⟨"structure", none, none, "Missing metadata"⟩]).filter
        (fun i => i.kind == "duplicate")) = [] := by
  cases b <;> simp +decide

theorem filter_dup_shot_issues (shots : List RawShot) :
    ((shots.enum.flatMap (fun p =>
        (validate_shot p.2).map (fun e =>
          (⟨"shot", some (p.2.sid.getD ((p.1 : ℤ) + 1)), some p.1, e⟩ : Issue)))).filter
      (fun i => i.kind == "duplicate")) = [] := by
  rw [List.filter_eq_nil_iff]
  intro i hi
  rw [List.mem_flatMap] at hi
  obtain ⟨p, _, hi2⟩ := hi
  rw [List.mem_map] at hi2
  obtain ⟨e, _, rfl⟩ := hi2
  simp +decide

theorem filter_dup_dupScan (l : List RawShot)
    (seen : List (Option JVal × Option JVal)) :
    (dupScan seen l).filter (fun i => i.kind == "duplicate") = dupScan seen l := by
  rw [List.filter_eq_self]
  intro i hi
  rw [dupScan_all_duplicate l seen i hi]
  rfl

/-- C9: in a structurally well-formed draft, the number of
`duplicate`-kind issues equals (survey shots) − (distinct survey
`(from,to)` pairs) — so exactly two survey shots sharing one pair yield
exactly one duplicate issue — the returned `is_valid` flag is true
exactly when no `shot`-kind issue exists (duplicates never invalidate),
and the concrete two-identical-shot draft validates to
`(true, [one duplicate issue])`. -/
theorem validate_draft_duplicates_report :
    (∀ (draft : Draft) (shots : List RawShot), draft.shots = some shots →
      shots ≠ [] →
      ((validate_draft_data draft).2.filter
          (fun i => i.kind == "duplicate")).length +
          ((shots.filter isSurvey).map pairOf).toFinset.card =
        (shots.filter isSurvey).length) ∧
    (∀ (draft : Draft) (shots : List RawShot), draft.shots = some shots →
      shots ≠ [] →
      ((validate_draft_data draft).1 = true ↔
        ((validate_draft_data draft).2.filter
          (fun i => i.kind == "shot")).length = 0)) ∧
    validate_draft_data dupDraft =
      (true, [⟨"duplicate", some 2, none, "Duplicate shot: A to B"⟩]) := by
  refine ⟨?_, ?_, by decide⟩
  · intro draft shots hsh hne
    unfold validate_draft_data
    rw [hsh]
    dsimp only
    rw [if_neg (by simpa using hne)]
    dsimp only
    rw [List.filter_append, List.filter_append, filter_dup_base,
      filter_dup_shot_issues, filter_dup_dupScan]
    simp only [List.nil_append, List.length_nil]
    have := dupScan_length (shots.filter isSurvey) []
    simpa using this
  · intro draft shots hsh hne
    unfold validate_draft_data
    rw [hsh]
    dsimp only
    rw [if_neg (by simpa using hne)]
    dsimp only
    rw [decide_eq_true_iff]

/-- Witness for C9 on the concrete duplicate draft. -/
theorem validate_draft_duplicates_report_witness :
    ((validate_draft_data dupDraft).2.filter
        (fun i => i.kind == "duplicate")).length +
        ((([surveyShot 1 "A" "B", surveyShot 2 "A" "B"].filter
          isSurvey).map pairOf)).toFinset.card =
      ([surveyShot 1 "A" "B", surveyShot 2 "A" "B"].filter isSurvey).length :=
  validate_draft_duplicates_report.1 dupDraft
    [surveyShot 1 "A" "B", surveyShot 2 "A" "B"] rfl (by decide)

end CaveSurvey
